import Mathlib

/-!
Verification of the MoodMirror mood-journal pipeline (`src/src/App.tsx`).

The TypeScript source is shallowly embedded.  The React state hooks become
the fields of an explicit `AppState`; every asynchronous handler is split
into the atomic synchronous segments the browser event loop actually runs;
the external LLM gateway is an environment parameter, so each event in a
trace carries the gateway outcome for the call it models.

JavaScript `Date` values are embedded as a whole-day count since the Unix
epoch plus the milliseconds elapsed within that day, in a fixed-offset local
timezone (no DST).  `Date.prototype.setDate` receives its normalising
semantics: setting the day-of-month to `n` moves the instant by
`n - getDate()` whole days and keeps the time of day; day-of-month values
are produced by the standard civil-from-days algorithm that underlies the
JavaScript date getters.  JavaScript numbers are embedded as `ℚ` (none of
the verified properties depends on floating-point rounding).
-/

namespace MoodMirror

/-- Milliseconds in one day, the quantity the source writes as
`24 * 60 * 60 * 1000`. -/
def msPerDay : ℤ := 86400000

/-- A JavaScript `Date` in a fixed-offset local timezone: `days` is the number
of whole days since the Unix epoch (negative before 1970) and `ms` the
milliseconds elapsed within that day.  Values built from a real clock satisfy
`JSDate.wellFormed`. -/
structure JSDate where
  days : ℤ
  ms : ℤ
deriving DecidableEq

/-- A clock-produced `JSDate` keeps its intra-day milliseconds in range. -/
def JSDate.wellFormed (d : JSDate) : Prop := 0 ≤ d.ms ∧ d.ms < msPerDay

instance (d : JSDate) : Decidable d.wellFormed := by
  unfold JSDate.wellFormed; infer_instance

/-- A proleptic Gregorian calendar date, as the JavaScript getters report it. -/
structure Civil where
  year : ℤ
  month : ℤ
  day : ℤ
deriving DecidableEq

/-- Civil date of a day count since 1970-01-01: Howard Hinnant's
`civil_from_days` algorithm, the one underlying the JavaScript `Date`
getters.  `Int` division by a positive constant is floor division, which is
what the algorithm requires. -/
def civilFromDays (z0 : ℤ) : Civil :=
  let z := z0 + 719468
  let era := z / 146097
  let doe := z - era * 146097
  let yoe := (doe - doe / 1460 + doe / 36524 - doe / 146096) / 365
  let y := yoe + era * 400
  let doy := doe - (365 * yoe + yoe / 4 - yoe / 100)
  let mp := (5 * doy + 2) / 153
  let d := doy - (153 * mp + 2) / 5 + 1
  let m := mp + (if mp < 10 then 3 else -9)
  { year := y + (if m ≤ 2 then 1 else 0), month := m, day := d }

/-- JavaScript `Date.prototype.getTime`: milliseconds since the epoch. -/
def JSDate.getTime (d : JSDate) : ℤ := d.days * msPerDay + d.ms

/-- JavaScript `new Date(t)` for a millisecond timestamp `t`. -/
def JSDate.ofMillis (t : ℤ) : JSDate := ⟨t / msPerDay, t % msPerDay⟩

/-- JavaScript `Date.prototype.getDay`: day of week, `0` = Sunday.  Day `0`
(1970-01-01) was a Thursday (`4`). -/
def JSDate.getDay (d : JSDate) : ℤ := (d.days + 4) % 7

/-- JavaScript `Date.prototype.getDate`: day of the month, `1`-based. -/
def JSDate.getDate (d : JSDate) : ℤ := (civilFromDays d.days).day

/-- JavaScript `Date.prototype.setDate`: sets the day-of-month to `n`,
normalising overflow and underflow into the adjacent months, i.e. the
instant moves by `n - getDate()` whole days; the time of day is kept. -/
def JSDate.setDate (d : JSDate) (n : ℤ) : JSDate :=
  ⟨d.days + (n - d.getDate), d.ms⟩

/-! ## Data model (`interface MoodEntry / WeeklySummary / PatternInsight`) -/

/-- The `inputMethod` union type `'text' | 'voice' | 'photo'`. -/
inductive InputMethod where
  | text
  | voice
  | photo
deriving DecidableEq

/-- One journal entry (`interface MoodEntry`).  `mood` is a plain string in
the source — nothing restricts it to the eight-value enumeration — and
`confidence` a plain number; timestamps are epoch milliseconds. -/
structure MoodEntry where
  id : String
  timestamp : ℤ
  text : String
  mood : String
  confidence : ℚ
  content : Option String := none
  inputMethod : InputMethod
deriving DecidableEq

/-- A persisted weekly summary (`interface WeeklySummary`).  The JavaScript
`Record<string, number>` mood distribution is embedded as an association
list in key-insertion order, which is the enumeration order
`Object.entries` guarantees for string keys. -/
structure WeeklySummary where
  weekStart : ℤ
  weekEnd : ℤ
  entries : List MoodEntry
  dominantMood : String
  moodDistribution : List (String × ℕ)
  averageConfidence : ℚ
  insights : List String
  recommendations : List String
deriving DecidableEq

/-- An ephemeral pattern-insight record (`interface PatternInsight`). -/
structure PatternInsight where
  pattern : String
  frequency : ℚ
  description : String
  recommendation : String
  timeframe : String
deriving DecidableEq

/-- The eight mood labels the classification prompt constrains the gateway
to (and the keys of `MOOD_COLORS` / `MOOD_EMOJIS`).  The code never checks
an incoming mood against this list. -/
def moodEnum : List String :=
  ["happy", "sad", "angry", "anxious", "excited", "calm", "confused", "motivated"]

/-- The parsed JSON object a successful classification call returns
(`{mood, confidence, reasoning}`); `reasoning` is never read by the code,
so it is not carried. -/
structure Analysis where
  mood : String
  confidence : ℚ
deriving DecidableEq

/-- The parsed JSON object a successful weekly-summary call returns. -/
structure SummaryResponse where
  insights : List String
  recommendations : List String
deriving DecidableEq

/-- The data a `generateWeeklySummary` invocation has captured when it
suspends at `await spark.llm(...)`: the week bounds, the entries filtered
from the history *read at invocation time*, and the aggregates computed
from them before the prompt is built — everything of the eventual summary
except the gateway's `insights` and `recommendations`.  One value per
in-flight gateway request. -/
structure PendingSummary where
  weekStart : ℤ
  weekEnd : ℤ
  entries : List MoodEntry
  dominantMood : String
  moodDistribution : List (String × ℕ)
  averageConfidence : ℚ
deriving DecidableEq

/-- Outcome of one pattern-insight gateway call: a JSON array of insights, a
JSON value that is not an array (`Array.isArray` fails), or a thrown error
(network failure or `JSON.parse` failure). -/
inductive InsightResponse where
  | ok (insights : List PatternInsight)
  | notArray
  | err
deriving DecidableEq

/-- A `toast` notification (`sonner`), the user-visible transient
notification surface. -/
inductive Toast where
  | error (msg : String)
  | success (msg : String)
deriving DecidableEq

/-- JavaScript `!input.trim()`: the submitted text is empty after trimming,
i.e. every character is whitespace. -/
def trimmedEmpty (s : String) : Bool := s.data.all Char.isWhitespace

/-! ## Application state

The embedded state carries exactly the hooks the verified claims are about:
`moodHistory` (`useKV 'mood-history'`), `weeklySummaries`
(`useKV 'weekly-summaries'`), `patternInsights` and `isGeneratingInsights`
(`useState`).  Presentation-only hooks (`currentInput`, `currentMood`,
`isAnalyzing`, the selected-tab states) are omitted.  Two fields record
the in-flight gateway calls: `outstanding`, the number of pattern-insight
promises issued and not yet settled (the observation variable of the
single-flight property), and `pendingSummaries`, the captured payloads of
the `generateWeeklySummary` invocations currently awaiting the gateway —
the weekly-summary path has no single-flight guard, so several can be
pending at once. -/

structure AppState where
  moodHistory : List MoodEntry
  weeklySummaries : List WeeklySummary
  patternInsights : List PatternInsight
  isGeneratingInsights : Bool
  outstanding : ℕ
  pendingSummaries : List PendingSummary
deriving DecidableEq

/-- The state on first load: both `useKV` stores default to `[]`, the
insight list to `[]`, the in-flight flag to `false`, no pending calls. -/
def initState : AppState :=
  { moodHistory := []
    weeklySummaries := []
    patternInsights := []
    isGeneratingInsights := false
    outstanding := 0
    pendingSummaries := [] }

/-! ## Entry store -/

/-- The append the source performs on success:
`setMoodHistory(current => [moodEntry, ...current].slice(0, 50))`. -/
def appendEntry (moodEntry : MoodEntry) (current : List MoodEntry) : List MoodEntry :=
  (moodEntry :: current).take 50

/-- A whole submission session: each text in turn is classified and appended
to an initially empty history (the quantified object of the capacity claim). -/
def appendAll (es : List MoodEntry) : List MoodEntry :=
  es.foldl (fun current e => appendEntry e current) []

/-- `analyzeMood`, the classification handler, given the instant `now`
(`Date.now()`), the submitted text, and the gateway outcome (`none` models a
thrown gateway or parse error).  Returns the successor state together with
the toasts raised.  The follow-up `generatePersonalizedContent` call is a
separate fire-and-forget event (`Event.contentDone`). -/
def analyzeMood (now : ℤ) (input : String) (method : InputMethod)
    (result : Option Analysis) (s : AppState) : AppState × List Toast :=
  if trimmedEmpty input then
    (s, [.error "Please enter some text to analyze"])
  else
    match result with
    | none => (s, [.error "Failed to analyze mood. Please try again."])
    | some analysis =>
      let moodEntry : MoodEntry :=
        { id := toString now
          timestamp := now
          text := input
          mood := analysis.mood
          confidence := analysis.confidence
          content := none
          inputMethod := method }
      ({ s with moodHistory := appendEntry moodEntry s.moodHistory },
       [.success ("Mood detected: " ++ analysis.mood)])

/-! ## Aggregator -/

/-- One step of the frequency reduce
`acc[entry.mood] = (acc[entry.mood] || 0) + 1` on a JavaScript object with
string keys: an existing key keeps its position, a new key is appended. -/
def bumpCount (acc : List (String × ℕ)) (mood : String) : List (String × ℕ) :=
  if acc.any (fun p => p.1 == mood) then
    acc.map (fun p => if p.1 == mood then (p.1, p.2 + 1) else p)
  else
    acc ++ [(mood, 1)]

/-- The mood-frequency distribution of a list of moods, in first-seen key
order (the source's `reduce` over `entry.mood`). -/
def freqOf (moods : List String) : List (String × ℕ) :=
  moods.foldl bumpCount []

/-- Stable insertion of an entries pair into a list already sorted by
descending count: the new pair goes in front of the first pair whose count
does not exceed it, so pairs with equal counts keep their original relative
order. -/
def insertByCountDesc (x : String × ℕ) : List (String × ℕ) → List (String × ℕ)
  | [] => [x]
  | y :: ys => if x.2 < y.2 then y :: insertByCountDesc x ys else x :: y :: ys

/-- The source's `Object.entries(dist).sort((a, b) => b[1] - a[1])`:
`Array.prototype.sort` is required to be stable, and a stable sort by
descending count is uniquely determined, so a stable insertion sort is a
faithful embedding. -/
def sortByCountDesc : List (String × ℕ) → List (String × ℕ)
  | [] => []
  | x :: xs => insertByCountDesc x (sortByCountDesc xs)

/-- `dominantMood`: the key of the first pair of the descending-sorted
distribution (`...sort(...)[0][0]`); junk on the empty distribution, on
which the source would crash (it is only reached with ≥ 3 entries). -/
def dominantOf (dist : List (String × ℕ)) : String :=
  ((sortByCountDesc dist).headD ("", 0)).1

/-- The largest count occurring in a distribution (0 if empty); used to
state what `dominantOf` returns, not part of the source. -/
def maxCount (dist : List (String × ℕ)) : ℕ :=
  (dist.map (·.2)).foldr Nat.max 0

/-- The trend classification (`getMoodTrend`), a function of the
newest-first mood history. -/
inductive Trend where
  | positive
  | concerning
  | mixed
deriving DecidableEq

/-- `getMoodTrend`: `null` below 2 entries, otherwise classify the count of
positive moods among the 5 most recent entries. -/
def getMoodTrend (moodHistory : List MoodEntry) : Option Trend :=
  if moodHistory.length < 2 then none
  else
    let recent := moodHistory.take 5
    let positiveCount :=
      (recent.filter (fun entry =>
        (["happy", "excited", "calm", "motivated"] : List String).contains entry.mood)).length
    some (if positiveCount ≥ 3 then .positive
          else if positiveCount ≤ 1 then .concerning
          else .mixed)

/-! ## Summary scheduler -/

/-- `getWeekStart`, verbatim from the source:
`const d = new Date(date); const day = d.getDay();
const diff = d.getDate() - day; return new Date(d.setDate(diff))`. -/
def getWeekStart (date : JSDate) : JSDate :=
  let d := date
  let day := d.getDay
  let diff := d.getDate - day
  d.setDate diff

/-- The week-start instant `generateWeeklySummary` derives from the current
instant: `getWeekStart(new Date(now.getTime() - 7 * 24 * 60 * 60 * 1000))`. -/
def targetWeekStart (now : JSDate) : JSDate :=
  getWeekStart (JSDate.ofMillis (now.getTime - 7 * msPerDay))

/-- The entries `generateWeeklySummary` selects:
`entry.timestamp >= weekStart.getTime() && entry.timestamp < weekEnd.getTime()`
with `weekEnd = new Date(weekStart.getTime() + 7 * 24 * 60 * 60 * 1000)`. -/
def weekEntriesOf (moodHistory : List MoodEntry) (now : JSDate) : List MoodEntry :=
  let weekStart := targetWeekStart now
  let weekEndTime := weekStart.getTime + 7 * msPerDay
  moodHistory.filter (fun entry =>
    decide (weekStart.getTime ≤ entry.timestamp) && decide (entry.timestamp < weekEndTime))

/-- The synchronous prefix of `generateWeeklySummary`, run atomically when
the function is invoked and ending at `await spark.llm(...)`: compute the
week bounds from `now` (the source reads `new Date()` once in the effect
and once in the function body; the two constructions within one event-loop
turn are modelled as the same instant), filter the *current* history into
the window, return before any state change when fewer than 3 entries fall
inside it, otherwise compute the aggregates and issue the gateway request,
captured as a `PendingSummary`. -/
def summaryRequest (now : JSDate) (moodHistory : List MoodEntry) :
    Option PendingSummary :=
  let weekStart := targetWeekStart now
  let weekEntries := weekEntriesOf moodHistory now
  if weekEntries.length < 3 then none
  else
    let moodDistribution := freqOf (weekEntries.map (·.mood))
    let dominantMood := dominantOf moodDistribution
    let averageConfidence :=
      (weekEntries.foldl (fun sum entry => sum + entry.confidence) 0)
        / (weekEntries.length : ℚ)
    some { weekStart := weekStart.getTime
           weekEnd := weekStart.getTime + 7 * msPerDay
           entries := weekEntries
           dominantMood := dominantMood
           moodDistribution := moodDistribution
           averageConfidence := averageConfidence }

/-- The continuation of `generateWeeklySummary` after the `await`, run when
the gateway promise settles: on success build the summary from the captured
payload and the parsed response and prepend it to the *then-current* store
(`setWeeklySummaries(current => [summary, ...current].slice(0, 12))`); on a
thrown gateway or parse error (`resp = none`) the `catch` only logs. -/
def summarySettle (p : PendingSummary) (resp : Option SummaryResponse)
    (weeklySummaries : List WeeklySummary) : List WeeklySummary :=
  match resp with
  | none => weeklySummaries
  | some analysis =>
    ({ weekStart := p.weekStart
       weekEnd := p.weekEnd
       entries := p.entries
       dominantMood := p.dominantMood
       moodDistribution := p.moodDistribution
       averageConfidence := p.averageConfidence
       insights := analysis.insights
       recommendations := analysis.recommendations } :: weeklySummaries).take 12

/-- The gate of the weekly-summary `useEffect`:
`moodHistory.length >= 3 && (!lastSummary ||
lastSummary.weekStart < currentWeekStart.getTime() - 7 * 24 * 60 * 60 * 1000)`
where `lastSummary = weeklySummaries[0]`. -/
def weeklyDue (s : AppState) (now : JSDate) : Bool :=
  decide (3 ≤ s.moodHistory.length) &&
    match s.weeklySummaries with
    | [] => true
    | lastSummary :: _ =>
      decide (lastSummary.weekStart < (getWeekStart now).getTime - 7 * msPerDay)

/-! ## Event-loop traces

Each constructor is one atomic synchronous segment of a handler, carrying
the clock reading and gateway outcome of the call it models. -/

inductive Event where
  /-- A text submission: `analyzeMood` up to and including its state
  updates (`result = none` is the failure path). -/
  | submit (now : ℤ) (input : String) (method : InputMethod) (result : Option Analysis)
  /-- Settlement of a fire-and-forget `generatePersonalizedContent` call
  for the entry with id `entryId` (`result = none`: the `catch` only logs). -/
  | contentDone (entryId : String) (result : Option String)
  /-- An invocation of `generatePatternInsights` (the `useEffect` at
  ≥ 5 entries, or one of the two buttons, visible only at ≥ 5 entries):
  the synchronous prefix up to issuing the gateway request. -/
  | insightStart
  /-- Settlement of the pending pattern-insight request: the remainder of
  `generatePatternInsights` including its `finally`. -/
  | insightDone (resp : InsightResponse)
  /-- An invocation of `generateWeeklySummary`: `auto = true` is the
  `useEffect` path guarded by `weeklyDue`; `auto = false` is the
  "Generate This Week" button, enabled whenever `moodHistory.length ≥ 3`.
  Runs the synchronous prefix only (`summaryRequest`); the gateway call it
  may issue settles in a later, separate `summaryDone` event — the store is
  *not* updated here.  Nothing limits how many requests are pending. -/
  | summaryStart (auto : Bool) (now : JSDate)
  /-- Settlement of the `i`-th pending weekly-summary request (requests can
  settle in any order).  Whether the gateway call succeeded (`some`) or
  threw (`none`), the request stops being pending; on success
  `summarySettle` prepends the summary to the then-current store. -/
  | summaryDone (i : ℕ) (resp : Option SummaryResponse)
deriving DecidableEq

/-- The step function of the event loop. -/
def step (s : AppState) : Event → AppState
  | .submit now input method result => (analyzeMood now input method result s).1
  | .contentDone entryId result =>
    match result with
    | none => s
    | some content =>
      { s with moodHistory :=
          s.moodHistory.map (fun entry =>
            if entry.id == entryId then { entry with content := some content } else entry) }
  | .insightStart =>
    if s.moodHistory.length < 5 then s
    else if s.isGeneratingInsights then s
    else { s with isGeneratingInsights := true, outstanding := s.outstanding + 1 }
  | .insightDone resp =>
    if s.outstanding = 0 then s
    else
      match resp with
      | .ok insights =>
        { s with patternInsights := insights, isGeneratingInsights := false,
                 outstanding := s.outstanding - 1 }
      | .notArray =>
        { s with patternInsights := [], isGeneratingInsights := false,
                 outstanding := s.outstanding - 1 }
      | .err =>
        { s with patternInsights := [], isGeneratingInsights := false,
                 outstanding := s.outstanding - 1 }
  | .summaryStart auto now =>
    if (if auto then weeklyDue s now else decide (3 ≤ s.moodHistory.length)) then
      match summaryRequest now s.moodHistory with
      | none => s
      | some p => { s with pendingSummaries := s.pendingSummaries ++ [p] }
    else s
  | .summaryDone i resp =>
    match s.pendingSummaries[i]? with
    | none => s
    | some p =>
      { s with pendingSummaries := s.pendingSummaries.eraseIdx i,
               weeklySummaries := summarySettle p resp s.weeklySummaries }

/-- The state reached from first load by a trace of events. -/
def runTrace (tr : List Event) : AppState :=
  tr.foldl step initState

/-! ## Statements taken from the specification wording

These definitions are not translations of the source; each follows the
wording of a spec sentence and is compared against the source-derived
definition above. -/

/-- The spec wording of the week start: "the most recent Sunday at local
midnight" for the given instant. -/
def sundayMidnightOf (d : JSDate) : JSDate := ⟨d.days - d.getDay, 0⟩

/-- The spec wording of `trend`: take the most recent 5 entries (none below
2 entries), count the ones whose mood is happy, excited, calm or motivated,
and classify the count. -/
def trendSpec (entries : List MoodEntry) : Option Trend :=
  if entries.length < 2 then none
  else
    let window := entries.take 5
    let positives := window.countP (fun e =>
      decide (e.mood = "happy" ∨ e.mood = "excited" ∨ e.mood = "calm" ∨ e.mood = "motivated"))
    some (if 3 ≤ positives then .positive
          else if positives ≤ 1 then .concerning
          else .mixed)

/-- The run condition of the amended duplicate-`weekStart` claim: a
weekly-summary generation may only start through the `useEffect`-gated
automatic path, with a clock-produced instant, and only while no other
summary request is awaiting the gateway.  The program enforces none of
this; the other events are unrestricted. -/
def seqAuto (s : AppState) : Event → Prop
  | .summaryStart auto now =>
    auto = true ∧ now.wellFormed ∧ s.pendingSummaries = []
  | _ => True

instance (s : AppState) (e : Event) : Decidable (seqAuto s e) := by
  unfold seqAuto; cases e <;> infer_instance

/-- A run of the event loop in which every event satisfies the
state-dependent condition `Q` at the state where it fires. -/
def okRun (Q : AppState → Event → Prop) : AppState → List Event → Prop
  | _, [] => True
  | s, e :: tr => Q s e ∧ okRun Q (step s e) tr

instance instDecOkRunSeqAuto :
    ∀ (s : AppState) (tr : List Event), Decidable (okRun seqAuto s tr)
  | _, [] => .isTrue trivial
  | s, e :: tr =>
    have : Decidable (okRun seqAuto (step s e) tr) := instDecOkRunSeqAuto _ _
    inferInstanceAs (Decidable (_ ∧ _))

/-- Counterexample trace, manual path: three entries land in the target
week (day 4, 1970-01-05, in the week starting Sunday 1970-01-04); on day 12
the mount-time effect fires (its gateway call will fail), then the
"Generate This Week" button is pressed twice within the same millisecond;
the two button requests succeed, in order. -/
def dupManualTrace : List Event :=
  [.submit 345600000 "hi" .text (some ⟨"happy", 90⟩),
   .submit 345600001 "hi" .text (some ⟨"sad", 80⟩),
   .submit 345600002 "hi" .text (some ⟨"happy", 70⟩),
   .summaryStart true ⟨12, 3600000⟩,
   .summaryStart false ⟨12, 3600000⟩,
   .summaryStart false ⟨12, 3600000⟩,
   .summaryDone 0 none,
   .summaryDone 0 (some ⟨["a"], ["b"]⟩),
   .summaryDone 0 (some ⟨["a"], ["b"]⟩)]

/-- Counterexample trace, automatic path only — the double-fire race the
spec flags: the mount-time effect on day 12 starts a generation for the
week of Sunday 1970-01-04; while that request is awaiting the gateway a new
entry is submitted, so the effect fires again in the same millisecond,
reads the still-empty Summary Store, passes `weeklyDue`, and starts a
second generation for the same week; both requests succeed. -/
def dupAutoTrace : List Event :=
  [.submit 345600000 "hi" .text (some ⟨"happy", 90⟩),
   .submit 345600001 "hi" .text (some ⟨"sad", 80⟩),
   .submit 345600002 "hi" .text (some ⟨"happy", 70⟩),
   .summaryStart true ⟨12, 3600000⟩,
   .submit 1040400000 "hi" .text (some ⟨"calm", 60⟩),
   .summaryStart true ⟨12, 3600000⟩,
   .summaryDone 0 (some ⟨["a"], ["b"]⟩),
   .summaryDone 0 (some ⟨["a"], ["b"]⟩)]

/-- Counterexample trace for the failure-leaves-state-unchanged claim, up to
the point where a successful pattern-insight generation has filled the
insight set: five entries, then one generation that succeeds. -/
def insightFillTrace : List Event :=
  [.submit 0 "hi" .text (some ⟨"happy", 90⟩),
   .submit 1 "hi" .text (some ⟨"sad", 80⟩),
   .submit 2 "hi" .text (some ⟨"happy", 70⟩),
   .submit 3 "hi" .text (some ⟨"calm", 60⟩),
   .submit 4 "hi" .text (some ⟨"calm", 50⟩),
   .insightStart,
   .insightDone (.ok [⟨"p", 42, "d", "r", "t"⟩])]

/-- Witness trace for the amended distinctness theorem: three entries in
the target week, one effect-gated generation started while nothing is
pending, and its successful settlement. -/
def autoSummaryTrace : List Event :=
  [.submit 345600000 "hi" .text (some ⟨"happy", 90⟩),
   .submit 345600001 "hi" .text (some ⟨"sad", 80⟩),
   .submit 345600002 "hi" .text (some ⟨"happy", 70⟩),
   .summaryStart true ⟨12, 3600000⟩,
   .summaryDone 0 (some ⟨["a"], ["b"]⟩)]

/-! ## Helper lemmas -/

theorem appendEntry_eq_cons_take (e : MoodEntry) (h : List MoodEntry) :
    appendEntry e h = e :: h.take 49 := rfl

theorem foldl_appendEntry (es : List MoodEntry) :
    ∀ h : List MoodEntry,
      es.foldl (fun current e => appendEntry e current) (h.take 50)
        = (es.reverse ++ h).take 50 := by
  induction es with
  | nil => intro h; simp
  | cons e es ih =>
    intro h
    have hstep : appendEntry e (h.take 50) = (e :: h).take 50 := by
      rw [appendEntry_eq_cons_take]
      show e :: (h.take 50).take 49 = (e :: h).take 50
      simp [List.take_take]
    calc (e :: es).foldl (fun current e => appendEntry e current) (h.take 50)
        = es.foldl (fun current e => appendEntry e current) ((e :: h).take 50) := by
          simp [List.foldl_cons, hstep]
      _ = (es.reverse ++ (e :: h)).take 50 := ih (e :: h)
      _ = ((e :: es).reverse ++ h).take 50 := by simp

theorem getWeekStart_eq (d : JSDate) :
    getWeekStart d = ⟨d.days - d.getDay, d.ms⟩ := by
  simp only [getWeekStart, JSDate.setDate]
  congr 1
  ring

theorem targetWeekStart_getTime (now : JSDate) (hwf : now.wellFormed) :
    (targetWeekStart now).getTime = (getWeekStart now).getTime - 7 * msPerDay := by
  obtain ⟨h0, h1⟩ := hwf
  unfold targetWeekStart
  rw [getWeekStart_eq, getWeekStart_eq]
  simp only [JSDate.getTime, JSDate.ofMillis, JSDate.getDay, msPerDay] at *
  omega

theorem calendar_sanity :
    civilFromDays 0 = ⟨1970, 1, 1⟩
  ∧ civilFromDays (-1) = ⟨1969, 12, 31⟩
  ∧ civilFromDays 12 = ⟨1970, 1, 13⟩
  ∧ civilFromDays 19000 = ⟨2022, 1, 8⟩
  ∧ JSDate.getDay ⟨3, 0⟩ = 0 := by decide

theorem analyzeMood_fields (now : ℤ) (input : String) (method : InputMethod)
    (result : Option Analysis) (s : AppState) :
    ((analyzeMood now input method result s).1).weeklySummaries = s.weeklySummaries
  ∧ ((analyzeMood now input method result s).1).patternInsights = s.patternInsights
  ∧ ((analyzeMood now input method result s).1).isGeneratingInsights = s.isGeneratingInsights
  ∧ ((analyzeMood now input method result s).1).outstanding = s.outstanding
  ∧ ((analyzeMood now input method result s).1).pendingSummaries = s.pendingSummaries := by
  unfold analyzeMood
  split
  · exact ⟨rfl, rfl, rfl, rfl, rfl⟩
  · split <;> exact ⟨rfl, rfl, rfl, rfl, rfl⟩

theorem summaryRequest_some (now : JSDate) (moodHistory : List MoodEntry)
    (p : PendingSummary) (heq : summaryRequest now moodHistory = some p) :
    p.weekStart = (targetWeekStart now).getTime
  ∧ p.entries = weekEntriesOf moodHistory now
  ∧ 3 ≤ (weekEntriesOf moodHistory now).length := by
  simp only [summaryRequest] at heq
  split at heq
  · exact absurd heq (by simp)
  · rename_i hlen
    injection heq with heq
    subst heq
    exact ⟨rfl, rfl, Nat.le_of_not_lt hlen⟩

theorem summaryRequest_none_of_lt (now : JSDate) (moodHistory : List MoodEntry)
    (hlt : (weekEntriesOf moodHistory now).length < 3) :
    summaryRequest now moodHistory = none := by
  simp only [summaryRequest]
  rw [if_pos hlt]

theorem summaryStart_cases (s : AppState) (auto : Bool) (now : JSDate) :
    step s (.summaryStart auto now) = s
  ∨ ((if auto then weeklyDue s now else decide (3 ≤ s.moodHistory.length)) = true
      ∧ ∃ p, summaryRequest now s.moodHistory = some p
        ∧ step s (.summaryStart auto now)
            = { s with pendingSummaries := s.pendingSummaries ++ [p] }) := by
  by_cases hg : (if auto then weeklyDue s now else decide (3 ≤ s.moodHistory.length)) = true
  · cases heq : summaryRequest now s.moodHistory with
    | none =>
      left
      simp only [step]
      rw [if_pos hg, heq]
    | some p =>
      right
      refine ⟨hg, p, rfl, ?_⟩
      simp only [step]
      rw [if_pos hg, heq]
  · left
    simp only [step]
    rw [if_neg hg]

theorem summaryDone_cases (s : AppState) (i : ℕ) (resp : Option SummaryResponse) :
    step s (.summaryDone i resp) = s
  ∨ ∃ p, s.pendingSummaries[i]? = some p
      ∧ step s (.summaryDone i resp)
          = { s with pendingSummaries := s.pendingSummaries.eraseIdx i,
                     weeklySummaries := summarySettle p resp s.weeklySummaries } := by
  cases heq : s.pendingSummaries[i]? with
  | none =>
    left
    simp only [step]
    rw [heq]
  | some p =>
    right
    refine ⟨p, rfl, ?_⟩
    simp only [step]
    rw [heq]

theorem foldl_step_inv (P : AppState → Prop) (Q : Event → Prop)
    (hstep : ∀ s e, P s → Q e → P (step s e)) :
    ∀ (tr : List Event) (s : AppState), P s → (∀ e ∈ tr, Q e) → P (tr.foldl step s) := by
  intro tr
  induction tr with
  | nil => intro s hs _; exact hs
  | cons e es ih =>
    intro s hs hq
    exact ih (step s e) (hstep s e hs (hq e (by simp)))
      (fun x hx => hq x (by simp [hx]))

theorem okRun_inv (P : AppState → Prop) (Q : AppState → Event → Prop)
    (hstep : ∀ s e, P s → Q s e → P (step s e)) :
    ∀ (tr : List Event) (s : AppState), P s → okRun Q s tr → P (tr.foldl step s) := by
  intro tr
  induction tr with
  | nil => intro s hs _; exact hs
  | cons e es ih =>
    intro s hs hok
    have hok' : Q s e ∧ okRun Q (step s e) es := hok
    exact ih (step s e) (hstep s e hs hok'.1) hok'.2

/-! ## C1: Entry Store capacity and order -/

/-- C1: For every sequence of appends the Entry Store never exceeds 50
entries and is ordered strictly newest-first: the append places the new
entry at index 0, keeps the relative order of the existing entries, and
truncates to the 50 most recent, evicting the oldest.  `appendAll es` is
the history after submitting `es` in order, and `es.reverse.take 50` is
exactly the 50 most recent of `es` in newest-first order. -/
theorem entry_store_capacity_order :
    (∀ (e : MoodEntry) (h : List MoodEntry), appendEntry e h = e :: h.take 49)
  ∧ (∀ es : List MoodEntry, appendAll es = es.reverse.take 50)
  ∧ (∀ es : List MoodEntry, (appendAll es).length ≤ 50) := by
  have h2 : ∀ es : List MoodEntry, appendAll es = es.reverse.take 50 := by
    intro es
    have h := foldl_appendEntry es []
    simpa [appendAll] using h
  refine ⟨fun e h => appendEntry_eq_cons_take e h, h2, fun es => ?_⟩
  rw [h2, List.length_take]
  omega

/-! ## C2: week start and the summary window -/

/-- C2 counterexample: the claim says the week start is the most recent
Sunday at local midnight, but `getWeekStart` (via `setDate`) keeps the time
of day of its input.  At Tuesday 1970-01-13 01:00 (day 12, ms 3600000) it
returns Sunday 1970-01-11 01:00, not Sunday midnight. -/
theorem weekStart_not_midnight_ce :
    getWeekStart ⟨12, 3600000⟩ = ⟨10, 3600000⟩
  ∧ sundayMidnightOf ⟨12, 3600000⟩ = ⟨10, 0⟩
  ∧ getWeekStart ⟨12, 3600000⟩ ≠ sundayMidnightOf ⟨12, 3600000⟩ := by decide

/-- C2 amended: `getWeekStart` returns the most recent Sunday at the
*input's time of day* (it moves the instant back by `getDay` days, lands on
a Sunday, and keeps `ms`); the target week start is exactly 7 days before
the current week start; and the summary window contains exactly the entries
with timestamp in `[targetWeekStart, targetWeekStart + 7 days)`. -/
theorem weekStart_sameTime_window :
    (∀ d : JSDate, getWeekStart d = ⟨d.days - d.getDay, d.ms⟩
        ∧ (getWeekStart d).getDay = 0 ∧ 0 ≤ d.getDay ∧ d.getDay < 7)
  ∧ (∀ now : JSDate, now.wellFormed →
        (targetWeekStart now).getTime = (getWeekStart now).getTime - 7 * msPerDay)
  ∧ (∀ (moodHistory : List MoodEntry) (now : JSDate) (entry : MoodEntry),
        entry ∈ weekEntriesOf moodHistory now ↔
          entry ∈ moodHistory
            ∧ (targetWeekStart now).getTime ≤ entry.timestamp
            ∧ entry.timestamp < (targetWeekStart now).getTime + 7 * msPerDay) := by
  refine ⟨fun d => ⟨getWeekStart_eq d, ?_, ?_, ?_⟩, targetWeekStart_getTime, ?_⟩
  · rw [getWeekStart_eq]; simp only [JSDate.getDay]; omega
  · simp only [JSDate.getDay]; omega
  · simp only [JSDate.getDay]; omega
  · intro moodHistory now entry
    simp [weekEntriesOf, List.mem_filter, and_assoc]

/-- Witness for the amended C2 theorem at the instant of the
counterexample. -/
theorem weekStart_sameTime_window_w :
    ((0 : ℤ) ≤ 3600000 ∧ (3600000 : ℤ) < msPerDay)
  ∧ (targetWeekStart ⟨12, 3600000⟩).getTime
      = (getWeekStart ⟨12, 3600000⟩).getTime - 7 * msPerDay :=
  ⟨by decide, weekStart_sameTime_window.2.1 ⟨12, 3600000⟩ (by decide)⟩

/-! ## C8: classification failure aborts with a notification -/

/-- C8: When entry classification fails (gateway error or unparsable
response, `result = none`), a transient error toast is raised and nothing
else happens: the returned state — in particular the mood history — is
exactly the input state, so no partial entry is recorded. -/
theorem classify_failure_aborts :
    ∀ (now : ℤ) (input : String) (method : InputMethod) (s : AppState),
      trimmedEmpty input = false →
      analyzeMood now input method none s
        = (s, [Toast.error "Failed to analyze mood. Please try again."]) := by
  intro now input method s h
  simp [analyzeMood, h]

/-- Witness for C8 on the concrete submission "hi" from the initial state. -/
theorem classify_failure_aborts_w :
    trimmedEmpty "hi" = false
  ∧ analyzeMood 0 "hi" .text none initState
      = (initState, [Toast.error "Failed to analyze mood. Please try again."]) :=
  ⟨by decide, classify_failure_aborts 0 "hi" .text initState (by decide)⟩

/-! ## C10: classified values are stored unvalidated -/

/-- C10: On every successful classification the stored entry's `mood` and
`confidence` are exactly the parsed gateway values, for an arbitrary
`Analysis` — the code applies no validation, so any string mood (not just
the eight enumerated ones) and any number are recorded as-is at index 0. -/
theorem classified_entry_stored_raw :
    ∀ (now : ℤ) (input : String) (method : InputMethod) (a : Analysis) (s : AppState),
      trimmedEmpty input = false →
      ((analyzeMood now input method (some a) s).1).moodHistory
        = { id := toString now, timestamp := now, text := input, mood := a.mood,
            confidence := a.confidence, content := none, inputMethod := method }
          :: s.moodHistory.take 49 := by
  intro now input method a s h
  simp [analyzeMood, h, appendEntry_eq_cons_take]

/-- Witness for C10: a mood string outside the eight-value enumeration and
a confidence outside `[0, 100]` are stored verbatim. -/
theorem classified_entry_stored_raw_w :
    ((analyzeMood 0 "hi" .text (some ⟨"definitely-not-a-mood", 250⟩) initState).1).moodHistory
      = [{ id := toString (0 : ℤ), timestamp := 0, text := "hi",
           mood := "definitely-not-a-mood", confidence := 250,
           content := none, inputMethod := .text }]
  ∧ moodEnum.contains "definitely-not-a-mood" = false
  ∧ (100 : ℚ) < 250 := by
  refine ⟨?_, by decide, by decide⟩
  have h := classified_entry_stored_raw 0 "hi" .text
    ⟨"definitely-not-a-mood", 250⟩ initState (by decide)
  simpa [initState] using h

/-! ## C5: dominant mood is the first-seen maximum -/

theorem insertByCountDesc_length (x : String × ℕ) (l : List (String × ℕ)) :
    (insertByCountDesc x l).length = l.length + 1 := by
  induction l with
  | nil => rfl
  | cons y ys ih =>
    simp only [insertByCountDesc]
    split <;> simp [ih]

theorem sortByCountDesc_length (l : List (String × ℕ)) :
    (sortByCountDesc l).length = l.length := by
  induction l with
  | nil => rfl
  | cons x xs ih => simp [sortByCountDesc, insertByCountDesc_length, ih]

theorem maxCount_cons (p : String × ℕ) (l : List (String × ℕ)) :
    maxCount (p :: l) = Nat.max p.2 (maxCount l) := rfl

theorem nat_max_ite (a b : ℕ) : Nat.max a b = if a ≤ b then b else a := by
  rw [Nat.max]
  split <;> omega

theorem sort_head_first_max :
    ∀ dist : List (String × ℕ), dist ≠ [] →
      (sortByCountDesc dist).headD ("", 0) ∈ dist
    ∧ ((sortByCountDesc dist).headD ("", 0)).2 = maxCount dist
    ∧ dist.find? (fun q => q.2 == maxCount dist)
        = some ((sortByCountDesc dist).headD ("", 0)) := by
  intro dist
  induction dist with
  | nil => intro h; exact absurd rfl h
  | cons x xs ih =>
    intro _
    cases xs with
    | nil =>
      refine ⟨?_, ?_, ?_⟩
      · simp [sortByCountDesc, insertByCountDesc]
      · simp [sortByCountDesc, insertByCountDesc, maxCount]
      · simp [sortByCountDesc, insertByCountDesc, maxCount, List.find?]
    | cons y ys =>
      obtain ⟨h0, t0, hs⟩ : ∃ h0 t0, sortByCountDesc (y :: ys) = h0 :: t0 := by
        have hlen := sortByCountDesc_length (y :: ys)
        cases hsort : sortByCountDesc (y :: ys) with
        | nil => rw [hsort] at hlen; simp at hlen
        | cons a b => exact ⟨a, b, rfl⟩
      have ihh := ih (by simp)
      rw [hs] at ihh
      simp only [List.headD_cons] at ihh
      obtain ⟨hmem, hcnt, hfind⟩ := ihh
      by_cases hlt : x.2 < h0.2
      · have hsort2 : sortByCountDesc (x :: y :: ys) = h0 :: insertByCountDesc x t0 := by
          show insertByCountDesc x (sortByCountDesc (y :: ys)) = _
          rw [hs]
          simp [insertByCountDesc, hlt]
        have hmax : maxCount (x :: y :: ys) = maxCount (y :: ys) := by
          rw [maxCount_cons, nat_max_ite]
          split <;> omega
        rw [hsort2]
        simp only [List.headD_cons]
        refine ⟨List.mem_cons_of_mem x hmem, by rw [hmax]; exact hcnt, ?_⟩
        rw [hmax]
        have hne : (x.2 == maxCount (y :: ys)) = false := by
          simp only [beq_eq_false_iff_ne, ne_eq]
          omega
        rw [List.find?_cons_of_neg _ (by simp [hne])]
        exact hfind
      · have hsort2 : sortByCountDesc (x :: y :: ys) = x :: h0 :: t0 := by
          show insertByCountDesc x (sortByCountDesc (y :: ys)) = _
          rw [hs]
          simp [insertByCountDesc, hlt]
        have hmax : maxCount (x :: y :: ys) = x.2 := by
          rw [maxCount_cons, nat_max_ite]
          split <;> omega
        rw [hsort2]
        simp only [List.headD_cons]
        refine ⟨List.mem_cons_self x _, by rw [hmax], ?_⟩
        rw [hmax]
        rw [List.find?_cons_of_pos _ (by simp)]

/-- C5: `dominantMood` is the key of the head of the stable descending sort
of the distribution: it attains the maximum count, and it is exactly the
first-encountered pair carrying the maximum count (`List.find?` over the
insertion-ordered distribution); for the distribution built by encountering
calm before happy with counts calm 2, happy 2, the result is calm. -/
theorem dominant_first_seen_max :
    (∀ dist : List (String × ℕ), dist ≠ [] →
        dominantOf dist = ((sortByCountDesc dist).headD ("", 0)).1
      ∧ (sortByCountDesc dist).headD ("", 0) ∈ dist
      ∧ ((sortByCountDesc dist).headD ("", 0)).2 = maxCount dist
      ∧ dist.find? (fun q => q.2 == maxCount dist)
          = some ((sortByCountDesc dist).headD ("", 0)))
  ∧ dominantOf (freqOf ["calm", "happy", "calm", "happy"]) = "calm" := by
  refine ⟨fun dist hne => ?_, by decide⟩
  obtain ⟨h1, h2, h3⟩ := sort_head_first_max dist hne
  exact ⟨rfl, h1, h2, h3⟩

/-- Witness for C5 at the two-way tie `[("calm", 2), ("happy", 2)]`. -/
theorem dominant_first_seen_max_w :
    ([("calm", 2), ("happy", 2)] : List (String × ℕ)) ≠ []
  ∧ (dominantOf [("calm", 2), ("happy", 2)]
        = ((sortByCountDesc [("calm", 2), ("happy", 2)]).headD ("", 0)).1
      ∧ (sortByCountDesc [("calm", 2), ("happy", 2)]).headD ("", 0)
          ∈ ([("calm", 2), ("happy", 2)] : List (String × ℕ))
      ∧ ((sortByCountDesc [("calm", 2), ("happy", 2)]).headD ("", 0)).2
          = maxCount [("calm", 2), ("happy", 2)]
      ∧ List.find? (fun q => q.2 == maxCount [("calm", 2), ("happy", 2)])
          [("calm", 2), ("happy", 2)]
          = some ((sortByCountDesc [("calm", 2), ("happy", 2)]).headD ("", 0))) :=
  ⟨by decide, dominant_first_seen_max.1 [("calm", 2), ("happy", 2)] (by decide)⟩

/-! ## C6: the trend classification -/

theorem contains_positive_moods (m : String) :
    ((["happy", "excited", "calm", "motivated"] : List String).contains m)
      = decide (m = "happy" ∨ m = "excited" ∨ m = "calm" ∨ m = "motivated") := by
  have h1 : (["happy", "excited", "calm", "motivated"] : List String).contains m
      = decide (m ∈ (["happy", "excited", "calm", "motivated"] : List String)) := by
    simp [List.contains]
  rw [h1]
  apply decide_eq_decide.mpr
  simp

/-- C6: `getMoodTrend` agrees everywhere with the spec's description of
`trend` (none below 2 entries, else classify the count of happy, excited,
calm or motivated moods among the 5 most recent entries); on the example
history with moods happy, excited, calm, motivated, sad it is positive. -/
theorem trend_matches_spec :
    (∀ moodHistory : List MoodEntry, getMoodTrend moodHistory = trendSpec moodHistory)
  ∧ getMoodTrend
      [⟨"1", 4, "", "happy", 90, none, .text⟩,
       ⟨"2", 3, "", "excited", 90, none, .text⟩,
       ⟨"3", 2, "", "calm", 90, none, .text⟩,
       ⟨"4", 1, "", "motivated", 90, none, .text⟩,
       ⟨"5", 0, "", "sad", 90, none, .text⟩] = some .positive
  ∧ (∀ moodHistory : List MoodEntry,
        moodHistory.length < 2 → getMoodTrend moodHistory = none) := by
  refine ⟨?_, by decide, ?_⟩
  · intro h
    simp only [getMoodTrend, trendSpec, List.countP_eq_length_filter, ge_iff_le,
      contains_positive_moods]
  · intro h hlen
    simp [getMoodTrend, hlen]

/-- Witness for C6 on the empty history. -/
theorem trend_matches_spec_w :
    ([] : List MoodEntry).length < 2 ∧ getMoodTrend [] = none :=
  ⟨by decide, trend_matches_spec.2.2 [] (by decide)⟩

/-! ## C9: the pattern-insight trigger is single-flight -/

theorem insight_flag_inv (tr : List Event) :
    (runTrace tr).outstanding
      = (if (runTrace tr).isGeneratingInsights then 1 else 0) := by
  refine foldl_step_inv
    (fun s => s.outstanding = (if s.isGeneratingInsights then 1 else 0))
    (fun _ => True) ?_ tr initState rfl (fun _ _ => trivial)
  intro s e hP _
  cases e with
  | submit now input method result =>
    obtain ⟨-, -, h3, h4, -⟩ := analyzeMood_fields now input method result s
    simp only [step, h3, h4]
    exact hP
  | contentDone entryId result =>
    cases result with
    | none => exact hP
    | some content => exact hP
  | insightStart =>
    simp only [step]
    split
    · exact hP
    split
    · rename_i htrue
      rw [htrue] at hP
      simpa using hP
    · rename_i hflag
      simp only [Bool.not_eq_true] at hflag
      have hz : s.outstanding = 0 := by
        rw [hflag] at hP
        simpa using hP
      simp [hz]
  | insightDone resp =>
    by_cases hout : s.outstanding = 0
    · have hstep : step s (.insightDone resp) = s := by simp [step, hout]
      rw [hstep]
      exact hP
    · have hflag : s.isGeneratingInsights = true := by
        by_contra hf
        simp only [Bool.not_eq_true] at hf
        rw [hf] at hP
        simp only [Bool.false_eq_true, if_false] at hP
        exact hout hP
      have hone : s.outstanding = 1 := by rw [hflag] at hP; simpa using hP
      cases resp <;> simp [step, hout, hone]
  | summaryStart auto now =>
    rcases summaryStart_cases s auto now with h | ⟨-, p, -, h⟩ <;> rw [h] <;> exact hP
  | summaryDone i resp =>
    rcases summaryDone_cases s i resp with h | ⟨p, -, h⟩ <;> rw [h] <;> exact hP

/-- C9: the pattern-insight trigger is single-flight.  For every event
trace the number of outstanding pattern-insight requests never exceeds 1;
an invocation while the in-flight flag is set leaves the state unchanged
(the trigger is dropped — no queue exists in the state); and the settlement
of a pending request clears the flag whether the response is a success, a
non-array, or an error. -/
theorem insight_single_flight :
    (∀ tr : List Event, (runTrace tr).outstanding ≤ 1)
  ∧ (∀ s : AppState, s.isGeneratingInsights = true → step s .insightStart = s)
  ∧ (∀ (s : AppState) (resp : InsightResponse), 1 ≤ s.outstanding →
        (step s (.insightDone resp)).isGeneratingInsights = false) := by
  refine ⟨?_, ?_, ?_⟩
  · intro tr
    rw [insight_flag_inv tr]
    split <;> omega
  · intro s hflag
    simp only [step]
    split
    · rfl
    · simp [hflag]
  · intro s resp hout
    have h0 : ¬ s.outstanding = 0 := by omega
    cases resp <;> simp [step, h0]

/-- Witness for C9 on a state with the flag set and one pending request. -/
theorem insight_single_flight_w :
    ((⟨[], [], [], true, 1, []⟩ : AppState).isGeneratingInsights = true
      ∧ step ⟨[], [], [], true, 1, []⟩ .insightStart = ⟨[], [], [], true, 1, []⟩)
  ∧ (1 ≤ (⟨[], [], [], true, 1, []⟩ : AppState).outstanding
      ∧ (step ⟨[], [], [], true, 1, []⟩ (.insightDone .err)).isGeneratingInsights = false) :=
  ⟨⟨rfl, insight_single_flight.2.1 ⟨[], [], [], true, 1, []⟩ rfl⟩,
   ⟨by decide, insight_single_flight.2.2 ⟨[], [], [], true, 1, []⟩ .err (by decide)⟩⟩

/-! ## C7: no weekly summary below 3 entries -/

/-- C7: a weekly summary is never generated for a week containing fewer
than 3 entries.  In every reachable state all stored summaries — and all
requests still awaiting the gateway, whose captured entries are the ones a
settlement would store — carry at least 3 entries; and when fewer than 3
entries fall in the target window an invocation of `generateWeeklySummary`
returns before issuing a request, leaving the state (in particular the
Summary Store) untouched. -/
theorem summary_min_entries :
    (∀ tr : List Event,
        (runTrace tr).weeklySummaries.all (fun w => decide (3 ≤ w.entries.length)) = true
      ∧ (runTrace tr).pendingSummaries.all (fun p => decide (3 ≤ p.entries.length)) = true)
  ∧ (∀ (s : AppState) (auto : Bool) (now : JSDate),
        (weekEntriesOf s.moodHistory now).length < 3 →
        step s (.summaryStart auto now) = s) := by
  refine ⟨?_, ?_⟩
  · intro tr
    refine foldl_step_inv
      (fun s => s.weeklySummaries.all (fun w => decide (3 ≤ w.entries.length)) = true
        ∧ s.pendingSummaries.all (fun p => decide (3 ≤ p.entries.length)) = true)
      (fun _ => True) ?_ tr initState ⟨rfl, rfl⟩ (fun _ _ => trivial)
    intro s e hP _
    obtain ⟨hPs, hPp⟩ := hP
    cases e with
    | submit now input method result =>
      obtain ⟨h1, -, -, -, h5⟩ := analyzeMood_fields now input method result s
      simp only [step, h1, h5]
      exact ⟨hPs, hPp⟩
    | contentDone entryId result =>
      cases result with
      | none => exact ⟨hPs, hPp⟩
      | some content => exact ⟨hPs, hPp⟩
    | insightStart =>
      simp only [step]
      split
      · exact ⟨hPs, hPp⟩
      split
      · exact ⟨hPs, hPp⟩
      · exact ⟨hPs, hPp⟩
    | insightDone resp =>
      simp only [step]
      split
      · exact ⟨hPs, hPp⟩
      · cases resp <;> exact ⟨hPs, hPp⟩
    | summaryStart auto now =>
      rcases summaryStart_cases s auto now with h | ⟨-, p, heq, h⟩
      · rw [h]; exact ⟨hPs, hPp⟩
      · rw [h]
        obtain ⟨-, hpe, hlen3⟩ := summaryRequest_some now s.moodHistory p heq
        refine ⟨hPs, ?_⟩
        show (s.pendingSummaries ++ [p]).all (fun p => decide (3 ≤ p.entries.length)) = true
        simp only [List.all_append, Bool.and_eq_true]
        refine ⟨hPp, ?_⟩
        simp only [List.all_cons, List.all_nil, Bool.and_true, decide_eq_true_eq]
        rw [hpe]
        exact hlen3
    | summaryDone i resp =>
      rcases summaryDone_cases s i resp with h | ⟨p, heq, h⟩
      · rw [h]; exact ⟨hPs, hPp⟩
      · rw [h]
        have hpmem : p ∈ s.pendingSummaries := List.getElem?_mem heq
        have hp3 : 3 ≤ p.entries.length := by
          rw [List.all_eq_true] at hPp
          simpa using hPp p hpmem
        constructor
        · show (summarySettle p resp s.weeklySummaries).all
            (fun w => decide (3 ≤ w.entries.length)) = true
          cases resp with
          | none => exact hPs
          | some analysis =>
            simp only [summarySettle]
            rw [List.all_eq_true] at hPs ⊢
            intro w hw
            have hw2 := List.mem_of_mem_take hw
            rcases List.mem_cons.mp hw2 with h | h
            · subst h
              simp only [decide_eq_true_eq]
              exact hp3
            · exact hPs w h
        · show (s.pendingSummaries.eraseIdx i).all
            (fun p => decide (3 ≤ p.entries.length)) = true
          rw [List.all_eq_true] at hPp ⊢
          intro q hq
          exact hPp q ((List.eraseIdx_sublist s.pendingSummaries i).subset hq)
  · intro s auto now hlt
    have hnone := summaryRequest_none_of_lt now s.moodHistory hlt
    simp [step, hnone]

/-- Witness for C7: from the initial state (no entries in any window) an
invocation, manual or automatic, is a no-op. -/
theorem summary_min_entries_w :
    (weekEntriesOf initState.moodHistory ⟨0, 0⟩).length < 3
  ∧ step initState (.summaryStart false ⟨0, 0⟩) = initState :=
  ⟨by decide, summary_min_entries.2 initState false ⟨0, 0⟩ (by decide)⟩

/-! ## C3: duplicate `weekStart` values in the Summary Store -/

/-- C3 counterexample, in two parts.  Manual path: the "Generate This Week"
button performs no duplicate check, so pressing it twice within the same
millisecond (both gateway calls succeeding) stores two summaries with the
same `weekStart`.  Automatic path: the effect trigger is not single-flight
protected — it re-fires on a history change while a generation is still
awaiting the gateway, reads the not-yet-updated Summary Store, passes
`weeklyDue` again, and the two settlements store duplicate `weekStart`
values with no manual click involved. -/
theorem summary_weekStart_duplicate_ce :
    (((runTrace dupManualTrace).weeklySummaries.map (·.weekStart))
        = [262800000, 262800000]
      ∧ ¬ ((runTrace dupManualTrace).weeklySummaries.map (·.weekStart)).Pairwise (· ≠ ·))
  ∧ (((runTrace dupAutoTrace).weeklySummaries.map (·.weekStart))
        = [262800000, 262800000]
      ∧ ¬ ((runTrace dupAutoTrace).weeklySummaries.map (·.weekStart)).Pairwise (· ≠ ·)) :=
  ⟨⟨by decide, by decide⟩, ⟨by decide, by decide⟩⟩

theorem weeklyDue_bound (s : AppState) (now : JSDate)
    (hwf : now.wellFormed) (hdue : weeklyDue s now = true)
    (hP : (s.weeklySummaries.map (·.weekStart)).Pairwise (· > ·)) :
    ∀ b ∈ s.weeklySummaries.map (·.weekStart), b < (targetWeekStart now).getTime := by
  have hW : (targetWeekStart now).getTime
      = (getWeekStart now).getTime - 7 * msPerDay := targetWeekStart_getTime now hwf
  intro b hb
  rw [weeklyDue, Bool.and_eq_true] at hdue
  obtain ⟨-, hcond⟩ := hdue
  cases holds : s.weeklySummaries with
  | nil => rw [holds] at hb; simp at hb
  | cons last rest =>
    rw [holds] at hcond hb hP
    simp only [List.map_cons] at hb hP
    have hlast : last.weekStart < (getWeekStart now).getTime - 7 * msPerDay := by
      simpa using hcond
    rcases List.mem_cons.mp hb with hb1 | hb2
    · rw [hb1, hW]; exact hlast
    · have hgt := (List.pairwise_cons.mp hP).1 b hb2
      rw [hW]; omega

theorem summarySettle_pairwise (p : PendingSummary) (resp : Option SummaryResponse)
    (ws : List WeeklySummary)
    (hP : (ws.map (·.weekStart)).Pairwise (· > ·))
    (hb : ∀ b ∈ ws.map (·.weekStart), b < p.weekStart) :
    ((summarySettle p resp ws).map (·.weekStart)).Pairwise (· > ·) := by
  cases resp with
  | none => exact hP
  | some analysis =>
    simp only [summarySettle]
    rw [List.map_take]
    refine List.Pairwise.sublist (List.take_sublist 12 _) ?_
    rw [List.map_cons]
    refine List.pairwise_cons.mpr ⟨?_, hP⟩
    intro b hbm
    show p.weekStart > b
    exact hb b hbm

/-- C3 amended: the stored `weekStart` values stay strictly decreasing —
hence pairwise distinct — on every run in which each weekly-summary
generation starts through the `useEffect`-gated automatic path, with a
clock-produced instant, and only while no other generation is awaiting the
gateway.  The program enforces neither restriction, and each is necessary:
the manual button bypasses the gate, and the unguarded effect can re-fire
while a request is in flight (the double-fire race §5 of the spec flags);
either way duplicate `weekStart` values are stored — see the
counterexample. -/
theorem summary_weekStart_distinct_auto :
    ∀ tr : List Event, okRun seqAuto initState tr →
      ((runTrace tr).weeklySummaries.map (·.weekStart)).Pairwise (· > ·)
    ∧ ((runTrace tr).weeklySummaries.map (·.weekStart)).Pairwise (· ≠ ·) := by
  intro tr hok
  have h := okRun_inv
    (fun s => (s.weeklySummaries.map (·.weekStart)).Pairwise (· > ·)
      ∧ (∀ p ∈ s.pendingSummaries,
          ∀ b ∈ s.weeklySummaries.map (·.weekStart), b < p.weekStart)
      ∧ s.pendingSummaries.length ≤ 1)
    seqAuto ?_ tr initState
    ⟨by simp [initState], by simp [initState], by simp [initState]⟩ hok
  · exact ⟨h.1, h.1.imp (fun hab => ne_of_gt hab)⟩
  intro s e hP hQ
  obtain ⟨hPw, hPp, hPl⟩ := hP
  cases e with
  | submit now input method result =>
    obtain ⟨h1, -, -, -, h5⟩ := analyzeMood_fields now input method result s
    simp only [step, h1, h5]
    exact ⟨hPw, hPp, hPl⟩
  | contentDone entryId result =>
    cases result with
    | none => exact ⟨hPw, hPp, hPl⟩
    | some content => exact ⟨hPw, hPp, hPl⟩
  | insightStart =>
    simp only [step]
    split
    · exact ⟨hPw, hPp, hPl⟩
    split
    · exact ⟨hPw, hPp, hPl⟩
    · exact ⟨hPw, hPp, hPl⟩
  | insightDone resp =>
    simp only [step]
    split
    · exact ⟨hPw, hPp, hPl⟩
    · cases resp <;> exact ⟨hPw, hPp, hPl⟩
  | summaryStart auto now =>
    obtain ⟨hauto, hwf, hpend⟩ := hQ
    subst hauto
    rcases summaryStart_cases s true now with h | ⟨hg, p, heq, h⟩
    · rw [h]; exact ⟨hPw, hPp, hPl⟩
    · rw [h]
      simp only [if_true] at hg
      obtain ⟨hpw, -, -⟩ := summaryRequest_some now s.moodHistory p heq
      refine ⟨hPw, ?_, ?_⟩
      · show ∀ q ∈ s.pendingSummaries ++ [p],
          ∀ b ∈ s.weeklySummaries.map (·.weekStart), b < q.weekStart
        intro q hq b hb
        rw [hpend] at hq
        simp only [List.nil_append, List.mem_singleton] at hq
        subst hq
        rw [hpw]
        exact weeklyDue_bound s now hwf hg hPw b hb
      · show (s.pendingSummaries ++ [p]).length ≤ 1
        rw [hpend]
        simp
  | summaryDone i resp =>
    rcases summaryDone_cases s i resp with h | ⟨p, heq, h⟩
    · rw [h]; exact ⟨hPw, hPp, hPl⟩
    · rw [h]
      obtain ⟨hpl, hi⟩ : s.pendingSummaries = [p] ∧ i = 0 := by
        cases hl : s.pendingSummaries with
        | nil => rw [hl] at heq; simp at heq
        | cons a t =>
          cases t with
          | nil =>
            rw [hl] at heq
            cases i with
            | zero =>
              simp only [List.getElem?_cons_zero, Option.some.injEq] at heq
              exact ⟨by rw [heq], rfl⟩
            | succ n => simp at heq
          | cons b u =>
            rw [hl] at hPl
            simp only [List.length_cons] at hPl
            omega
      subst hi
      have hpmem : p ∈ s.pendingSummaries := by rw [hpl]; exact List.mem_cons_self p []
      refine ⟨?_, ?_, ?_⟩
      · show ((summarySettle p resp s.weeklySummaries).map (·.weekStart)).Pairwise (· > ·)
        exact summarySettle_pairwise p resp s.weeklySummaries hPw (hPp p hpmem)
      · show ∀ q ∈ s.pendingSummaries.eraseIdx 0,
          ∀ b ∈ (summarySettle p resp s.weeklySummaries).map (·.weekStart), b < q.weekStart
        rw [hpl]
        intro q hq
        simp [List.eraseIdx] at hq
      · show (s.pendingSummaries.eraseIdx 0).length ≤ 1
        rw [hpl]
        simp [List.eraseIdx]

/-- Witness for the amended C3 theorem on a three-entry trace with one
effect-gated generation, started while nothing is pending and settled
successfully. -/
theorem summary_weekStart_distinct_auto_w :
    ((runTrace autoSummaryTrace).weeklySummaries.map (·.weekStart)).Pairwise (· > ·)
  ∧ ((runTrace autoSummaryTrace).weeklySummaries.map (·.weekStart)).Pairwise (· ≠ ·) :=
  summary_weekStart_distinct_auto autoSummaryTrace (by decide)

/-! ## C4: what failed generations leave behind -/

/-- C4 counterexample: a failed pattern-insight generation does not leave
the prior state unchanged — it resets a non-empty insight set to empty
(`setPatternInsights([])` in the `catch`). -/
theorem insight_failure_reset_ce :
    (runTrace insightFillTrace).patternInsights = [⟨"p", 42, "d", "r", "t"⟩]
  ∧ (runTrace (insightFillTrace ++ [.insightStart, .insightDone .err])).patternInsights
      = []
  ∧ ([(⟨"p", 42, "d", "r", "t"⟩ : PatternInsight)] : List PatternInsight) ≠ [] :=
  ⟨by decide, by decide, by decide⟩

/-- C4 amended: a failed supportive-content settlement leaves the state
exactly unchanged; a failed weekly-summary settlement leaves the mood
history, the Summary Store, the insight set and the in-flight flag
unchanged (only the bookkeeping of in-flight gateway calls drops the
settled request — nothing observable changes); a failed pattern-insight
settlement (thrown error or non-array response) leaves the mood history and
the Summary Store unchanged but resets the insight set to empty and clears
the in-flight flag. -/
theorem failure_state_effects :
    (∀ (s : AppState) (entryId : String), step s (.contentDone entryId none) = s)
  ∧ (∀ (s : AppState) (i : ℕ),
        (step s (.summaryDone i none)).weeklySummaries = s.weeklySummaries
      ∧ (step s (.summaryDone i none)).moodHistory = s.moodHistory
      ∧ (step s (.summaryDone i none)).patternInsights = s.patternInsights
      ∧ (step s (.summaryDone i none)).isGeneratingInsights = s.isGeneratingInsights)
  ∧ (∀ (s : AppState) (resp : InsightResponse),
        (resp = .err ∨ resp = .notArray) → 1 ≤ s.outstanding →
          (step s (.insightDone resp)).moodHistory = s.moodHistory
        ∧ (step s (.insightDone resp)).weeklySummaries = s.weeklySummaries
        ∧ (step s (.insightDone resp)).patternInsights = []
        ∧ (step s (.insightDone resp)).isGeneratingInsights = false) := by
  refine ⟨fun s entryId => rfl, ?_, ?_⟩
  · intro s i
    simp only [step]
    split
    · exact ⟨rfl, rfl, rfl, rfl⟩
    · exact ⟨rfl, rfl, rfl, rfl⟩
  · intro s resp hresp hout
    have h0 : ¬ s.outstanding = 0 := by omega
    rcases hresp with h | h <;> subst h <;> simp [step, h0]

/-- Witness for the amended C4 theorem on a state holding one insight, one
pending insight request and one pending summary request. -/
theorem failure_state_effects_w :
    step (⟨[], [], [⟨"p", 42, "d", "r", "t"⟩], true, 1,
        [⟨262800000, 867600000, [], "happy", [("happy", 3)], 80⟩]⟩ : AppState)
      (.contentDone "x" none)
      = ⟨[], [], [⟨"p", 42, "d", "r", "t"⟩], true, 1,
        [⟨262800000, 867600000, [], "happy", [("happy", 3)], 80⟩]⟩
  ∧ (step (⟨[], [], [⟨"p", 42, "d", "r", "t"⟩], true, 1,
        [⟨262800000, 867600000, [], "happy", [("happy", 3)], 80⟩]⟩ : AppState)
      (.summaryDone 0 none)).weeklySummaries = []
  ∧ (1 ≤ (⟨[], [], [⟨"p", 42, "d", "r", "t"⟩], true, 1,
        [⟨262800000, 867600000, [], "happy", [("happy", 3)], 80⟩]⟩ : AppState).outstanding
      ∧ (step (⟨[], [], [⟨"p", 42, "d", "r", "t"⟩], true, 1,
          [⟨262800000, 867600000, [], "happy", [("happy", 3)], 80⟩]⟩ : AppState)
          (.insightDone .err)).patternInsights = []
      ∧ (step (⟨[], [], [⟨"p", 42, "d", "r", "t"⟩], true, 1,
          [⟨262800000, 867600000, [], "happy", [("happy", 3)], 80⟩]⟩ : AppState)
          (.insightDone .err)).isGeneratingInsights = false) :=
  ⟨failure_state_effects.1 _ "x",
   (failure_state_effects.2.1 _ 0).1,
   by decide,
   (failure_state_effects.2.2 _ .err (Or.inl rfl) (by decide)).2.2.1,
   (failure_state_effects.2.2 _ .err (Or.inl rfl) (by decide)).2.2.2⟩

end MoodMirror
